import Mathlib

/-!
Verification development for the invoice-processor repository.

The repository is a browser invoice-extraction app plus a Vercel serverless
proxy.  The core under verification (per the specification) is:

  - normalizeMime / smartResize / compressImage / pdfToImageBase64
    (rasterizer, src/unnamed/part_000),
  - extractJSON (tolerant JSON extraction, src/unnamed/part_000),
  - extractInvoice (client pipeline and field coercion, src/unnamed/part_000),
  - the serverless handler with callAnthropic / callGemini
    (src/extract.js, and the variant in src/api/extract.js).

JavaScript values that flow through this code are modelled by the inductive
type Json below.  JSON.parse is modelled by a fuel-based recursive-descent
function jsonParseL faithful to the JSON grammar (numbers are kept as their
literal token text rather than converted to binary floats; float conversion
is outside the shallow embedding and no claim depends on it).  Numeric
canvas arithmetic is modelled over the rationals.
-/

/- The backtick character, used by the markdown fence stripping regexes. -/
def btick : Char := Char.ofNat 96

/- JavaScript regex whitespace class members used by the source regexes and
by String.trim (common ASCII subset; exotic unicode spaces are not used by
any input under consideration). -/
def isJsWs (c : Char) : Bool :=
  c = ' ' || c = '\t' || c = '\n' || c = '\r' || c = Char.ofNat 11 || c = Char.ofNat 12

/- JSON-grammar whitespace accepted by JSON.parse between tokens. -/
def isJsonWs (c : Char) : Bool :=
  c = ' ' || c = '\t' || c = '\n' || c = '\r'

/- Model of a JavaScript value produced by JSON.parse (and of the JSON
request/response bodies).  A number is kept as its literal token. -/
inductive Json where
  | null : Json
  | bool (b : Bool) : Json
  | num (tok : String) : Json
  | str (s : String) : Json
  | arr (elems : List Json) : Json
  | obj (fields : List (String × Json)) : Json

/- Property lookup on a parsed object: JSON.parse keeps the LAST occurrence
of a duplicated key, so the lookup returns the last binding. -/
def lookupLast (fs : List (String × Json)) (k : String) : Option Json :=
  match fs with
  | [] => none
  | (k2, v) :: r =>
    match lookupLast r k with
    | some w => some w
    | none => if k2 = k then some v else none

/- JavaScript property access v[k] for the object case; primitives have no
own properties here (access on null, which would throw in JS, is never
reached by the modelled code paths). -/
def jsGet (v : Json) (k : String) : Option Json :=
  match v with
  | .obj fs => lookupLast fs k
  | _ => none

/- JavaScript v?.[0] on an array value. -/
def jsIndex0 (v : Json) : Option Json :=
  match v with
  | .arr l => l.head?
  | _ => none

/- A numeric token denotes zero iff every digit of its mantissa (the part
before any exponent marker) is 0. -/
def jsNumZero (s : String) : Bool :=
  (s.data.takeWhile (fun c => c ≠ 'e' && c ≠ 'E')).all
    (fun c => !c.isDigit || c = '0')

/- JavaScript truthiness of a parsed value: null, false, 0 and the empty
string are falsy; arrays and objects are always truthy. -/
def jsTruthy (v : Json) : Bool :=
  match v with
  | .null => false
  | .bool b => b
  | .num s => !jsNumZero s
  | .str s => s ≠ ""
  | .arr _ => true
  | .obj _ => true

/- Escaping of one character as JSON.stringify performs it. -/
def escapeJsonChar (c : Char) : List Char :=
  if c = '"' then ['\\', '"']
  else if c = '\\' then ['\\', '\\']
  else if c = '\n' then ['\\', 'n']
  else if c = '\r' then ['\\', 'r']
  else if c = '\t' then ['\\', 't']
  else if c = Char.ofNat 8 then ['\\', 'b']
  else if c = Char.ofNat 12 then ['\\', 'f']
  else if c.toNat < 32 then
    ['\\', 'u', '0', '0',
     Nat.digitChar (c.toNat / 16), Nat.digitChar (c.toNat % 16)]
  else [c]

def escapeJsonStr (l : List Char) : List Char :=
  (l.map escapeJsonChar).flatten

/- Model of JSON.stringify (numbers are emitted as their stored token). -/
mutual
def jsonStringify : Json → String
  | .null => "null"
  | .bool b => cond b "true" "false"
  | .num s => s
  | .str s => "\"" ++ String.mk (escapeJsonStr s.data) ++ "\""
  | .arr l => "[" ++ stringifyElems l ++ "]"
  | .obj fs => "\x7b" ++ stringifyFields fs ++ "\x7d"

def stringifyElems : List Json → String
  | [] => ""
  | [v] => jsonStringify v
  | v :: w :: r => jsonStringify v ++ "," ++ stringifyElems (w :: r)

def stringifyFields : List (String × Json) → String
  | [] => ""
  | [(k, v)] =>
    "\"" ++ String.mk (escapeJsonStr k.data) ++ "\":" ++ jsonStringify v
  | (k, v) :: w :: r =>
    "\"" ++ String.mk (escapeJsonStr k.data) ++ "\":" ++ jsonStringify v
      ++ "," ++ stringifyFields (w :: r)
end

/- JavaScript string coercion as done by template literals: strings pass
through, arrays join their elements with commas (null elements become the
empty string), other objects render as the usual placeholder. -/
mutual
def jsTemplate : Json → String
  | .null => "null"
  | .bool b => cond b "true" "false"
  | .num s => s
  | .str s => s
  | .arr l => templateElems l
  | .obj _ => "[object Object]"

def templateElems : List Json → String
  | [] => ""
  | [Json.null] => ""
  | [v] => jsTemplate v
  | Json.null :: w :: r => "," ++ templateElems (w :: r)
  | v :: w :: r => jsTemplate v ++ "," ++ templateElems (w :: r)
end

/-! JSON.parse, modelled as a fuel-based recursive-descent parse over the
character list.  The fuel decreases on every recursive step; the top level
supplies fuel larger than any possible derivation for the given input, so
fuel exhaustion never changes the answer on any input the theorems touch
(those are all verified by evaluation or use the parse as a hypothesis). -/

def skipJsonWs (l : List Char) : List Char := l.dropWhile isJsonWs

/- Decode the body of a string literal, positioned after the opening quote.
Returns the decoded text and the remainder after the closing quote. -/
def isHexDig (c : Char) : Bool :=
  c.isDigit || ('a' ≤ c && c ≤ 'f') || ('A' ≤ c && c ≤ 'F')

def hexVal (c : Char) : Nat :=
  if c.isDigit then c.toNat - 48
  else if 'a' ≤ c then c.toNat - 87
  else c.toNat - 55

def parseStrBody : List Char → Option (String × List Char)
  | [] => none
  | '"' :: r => some ("", r)
  | '\\' :: 'u' :: a :: b :: c :: d :: r =>
    if isHexDig a && isHexDig b && isHexDig c && isHexDig d then
      match parseStrBody r with
      | some (s, r2) =>
        some (String.mk (Char.ofNat
          (hexVal a * 4096 + hexVal b * 256 + hexVal c * 16 + hexVal d)
            :: s.data), r2)
      | none => none
    else none
  | '\\' :: e :: r =>
    match (if e = '"' then some '"'
           else if e = '\\' then some '\\'
           else if e = '/' then some '/'
           else if e = 'b' then some (Char.ofNat 8)
           else if e = 'f' then some (Char.ofNat 12)
           else if e = 'n' then some '\n'
           else if e = 'r' then some '\r'
           else if e = 't' then some '\t'
           else none) with
    | some d =>
      match parseStrBody r with
      | some (s, r2) => some (String.mk (d :: s.data), r2)
      | none => none
    | none => none
  | c :: r =>
    if c.toNat < 32 then none
    else
      match parseStrBody r with
      | some (s, r2) => some (String.mk (c :: s.data), r2)
      | none => none

/- Continuation of a number token: optional fraction then optional exponent,
per the JSON grammar. -/
def numAfterExp (acc : List Char) (l : List Char) : Option (List Char × List Char) :=
  match l with
  | c :: r =>
    if c = 'e' || c = 'E' then
      let (sg, r2) : List Char × List Char :=
        match r with
        | '+' :: rr => (['+'], rr)
        | '-' :: rr => (['-'], rr)
        | _ => ([], r)
      let ds := r2.takeWhile Char.isDigit
      if ds.isEmpty then none
      else some (acc ++ c :: (sg ++ ds), r2.dropWhile Char.isDigit)
    else some (acc, l)
  | [] => some (acc, [])

def numAfterFrac (acc : List Char) (l : List Char) : Option (List Char × List Char) :=
  match l with
  | '.' :: r =>
    let ds := r.takeWhile Char.isDigit
    if ds.isEmpty then none
    else numAfterExp (acc ++ '.' :: ds) (r.dropWhile Char.isDigit)
  | _ => numAfterExp acc l

/- Parse a JSON number token (sign, integer part, fraction, exponent),
returning the token text. -/
def parseNumTok (l : List Char) : Option (Json × List Char) :=
  let (sg, l1) : List Char × List Char :=
    match l with
    | '-' :: r => (['-'], r)
    | _ => ([], l)
  match l1 with
  | '0' :: r =>
    match numAfterFrac (sg ++ ['0']) r with
    | some (tok, rest) => some (.num (String.mk tok), rest)
    | none => none
  | c :: r =>
    if c.isDigit then
      let ds := (c :: r).takeWhile Char.isDigit
      match numAfterFrac (sg ++ ds) ((c :: r).dropWhile Char.isDigit) with
      | some (tok, rest) => some (.num (String.mk tok), rest)
      | none => none
    else none
  | [] => none

mutual
/- Parse one JSON value, leading whitespace allowed. -/
def parseVal : Nat → List Char → Option (Json × List Char)
  | 0, _ => none
  | Nat.succ fu, l =>
    match skipJsonWs l with
    | '\x7b' :: r =>
      match skipJsonWs r with
      | '\x7d' :: r2 => some (.obj [], r2)
      | _ =>
        match parseObjItems fu (skipJsonWs r) with
        | some (fs, r2) => some (.obj fs, r2)
        | none => none
    | '[' :: r =>
      match skipJsonWs r with
      | ']' :: r2 => some (.arr [], r2)
      | _ =>
        match parseArrItems fu (skipJsonWs r) with
        | some (vs, r2) => some (.arr vs, r2)
        | none => none
    | '"' :: r =>
      match parseStrBody r with
      | some (s, r2) => some (.str s, r2)
      | none => none
    | 't' :: 'r' :: 'u' :: 'e' :: r => some (.bool true, r)
    | 'f' :: 'a' :: 'l' :: 's' :: 'e' :: r => some (.bool false, r)
    | 'n' :: 'u' :: 'l' :: 'l' :: r => some (.null, r)
    | l2 => parseNumTok l2

/- Parse the non-empty comma-separated items of an array, up to and
including the closing bracket. -/
def parseArrItems : Nat → List Char → Option (List Json × List Char)
  | 0, _ => none
  | Nat.succ fu, l =>
    match parseVal fu l with
    | some (v, r) =>
      match skipJsonWs r with
      | ',' :: r2 =>
        match parseArrItems fu r2 with
        | some (vs, r3) => some (v :: vs, r3)
        | none => none
      | ']' :: r2 => some ([v], r2)
      | _ => none
    | none => none

/- Parse the non-empty comma-separated members of an object, up to and
including the closing brace. -/
def parseObjItems : Nat → List Char → Option (List (String × Json) × List Char)
  | 0, _ => none
  | Nat.succ fu, l =>
    match l with
    | '"' :: r =>
      match parseStrBody r with
      | some (k, r2) =>
        match skipJsonWs r2 with
        | ':' :: r3 =>
          match parseVal fu r3 with
          | some (v, r4) =>
            match skipJsonWs r4 with
            | ',' :: r5 =>
              match parseObjItems fu (skipJsonWs r5) with
              | some (fs, r6) => some ((k, v) :: fs, r6)
              | none => none
            | '\x7d' :: r5 => some ([(k, v)], r5)
            | _ => none
          | none => none
        | _ => none
      | none => none
    | _ => none
end

/- JSON.parse over a character list: parse one value and require only
whitespace to remain.  The fuel bound exceeds the length of any derivation
for the input. -/
def jsonParseL (l : List Char) : Option Json :=
  match parseVal (2 * l.length + 2) l with
  | some (j, r) => if (skipJsonWs r).isEmpty then some j else none
  | none => none

def jsonParse (s : String) : Option Json := jsonParseL s.data

/-! Tolerant JSON extraction: embedding of extractJSON from
src/unnamed/part_000 lines 125-142.

  function extractJSON(raw)
    1. strip code fences with the two global regex replaces,
    2. trim, find the first open brace,
    3. scan brace depth to locate the balanced close,
    4. if none, repair: count unmatched brackets and braces, strip a
       trailing fragment with a third regex, append closers,
    5. JSON.parse the candidate (a parse failure propagates as a thrown
       SyntaxError, modelled as an error result). -/

/- Global replace of the first fence regex

    three backticks, then j s o n case-insensitively, then greedy whitespace

with the empty string.  On a match the scan resumes after the matched
span, consuming the greedy whitespace tail in a skipping state; on a
non-match the scan advances one character.  The fuel argument (at least
the length of the list; every step consumes at least one character) makes
the recursion structural. -/
def stripFenceJsonGo : Nat → Bool → List Char → List Char
  | 0, _, l => l
  | Nat.succ fu, sk, l =>
    match l with
    | [] => []
    | a :: t =>
      if sk && isJsWs a then stripFenceJsonGo fu true t
      else
        match t with
        | b :: c :: c1 :: c2 :: c3 :: c4 :: r =>
          if a = btick && b = btick && c = btick
              && c1.toLower = 'j' && c2.toLower = 's'
              && c3.toLower = 'o' && c4.toLower = 'n' then
            stripFenceJsonGo fu true r
          else a :: stripFenceJsonGo fu false t
        | _ => a :: stripFenceJsonGo fu false t

def stripFenceJson (l : List Char) : List Char := stripFenceJsonGo l.length false l

/- Global replace of the second fence regex (three bare backticks followed
by greedy whitespace) with the empty string. -/
def stripFenceBareGo : Nat → Bool → List Char → List Char
  | 0, _, l => l
  | Nat.succ fu, sk, l =>
    match l with
    | [] => []
    | a :: t =>
      if sk && isJsWs a then stripFenceBareGo fu true t
      else
        match t with
        | b :: c :: r =>
          if a = btick && b = btick && c = btick then stripFenceBareGo fu true r
          else a :: stripFenceBareGo fu false t
        | _ => a :: stripFenceBareGo fu false t

def stripFenceBare (l : List Char) : List Char := stripFenceBareGo l.length false l

/- String.prototype.trim. -/
def jsTrim (l : List Char) : List Char :=
  ((l.dropWhile isJsWs).reverse.dropWhile isJsWs).reverse

/- The brace-depth scan (lines 129-133): starting at the first open brace,
increment depth on an open brace and decrement on a close brace; the close
brace that returns the depth to zero ends the candidate.  Returns the
consumed prefix (the candidate) and the remainder, or none when the text
ends with the depth still positive. -/
def scanBal (depth : Int) : List Char → Option (List Char × List Char)
  | [] => none
  | c :: r =>
    if c = '\x7b' then
      match scanBal (depth + 1) r with
      | some (p, rest) => some (c :: p, rest)
      | none => none
    else if c = '\x7d' then
      if depth = 1 then some ([c], r)
      else
        match scanBal (depth - 1) r with
        | some (p, rest) => some (c :: p, rest)
        | none => none
    else
      match scanBal depth r with
      | some (p, rest) => some (c :: p, rest)
      | none => none

/- Existence-of-a-match test for the trailing-fragment regex

    comma, whitespace, quote, non-quote run, optional quote,
    whitespace, optional colon, whitespace, run free of comma and
    closing brackets, end of string

anchored at the end of the string.  Since the tail class excludes only
comma and the two closing brackets (whitespace, colons and quotes are all
admitted), a match starting at a comma exists iff after the comma and its
whitespace comes a quote and, should the non-quote run stop at a second
quote, the rest of the string is free of those three characters. -/
def noStop (l : List Char) : Bool :=
  l.all (fun c => c ≠ ',' && c ≠ '\x7d' && c ≠ ']')

def fragMatch (l : List Char) : Bool :=
  match l with
  | ',' :: r =>
    match r.dropWhile isJsWs with
    | '"' :: b =>
      match b.dropWhile (fun c => c ≠ '"') with
      | [] => true
      | _ :: rest => noStop rest
    | _ => false
  | _ => false

/- Replace the first (leftmost) match of the trailing-fragment regex with
the empty string; the match always extends to the end of the string. -/
def stripFrag (l : List Char) : List Char :=
  match l with
  | [] => []
  | c :: r => if fragMatch (c :: r) then [] else c :: stripFrag r

/- The repair heuristic (lines 135-140): bracket and brace surpluses are
counted on the unrepaired candidate, the trailing fragment is stripped,
then the closers are appended, all close brackets before all close
braces. -/
def repairCandidate (u : List Char) : List Char :=
  let opens : Int := (u.count '[' : Int) - (u.count ']' : Int)
  let objs : Int := (u.count '\x7b' : Int) - (u.count '\x7d' : Int)
  let s2 := stripFrag u
  s2 ++ List.replicate opens.toNat ']' ++ List.replicate objs.toNat '\x7d'

/- extractJSON.  A JSON.parse failure on the candidate is a thrown
SyntaxError; its JS message text is environment-specific and is modelled by
the fixed token "SyntaxError". -/
def extractJSONL (raw : List Char) : Except String Json :=
  let text := jsTrim (stripFenceBare (stripFenceJson raw))
  let u := text.dropWhile (fun c => c ≠ '\x7b')
  if u.isEmpty then
    .error ("No JSON object in response:\n" ++ String.mk (text.take 300))
  else
    match scanBal 0 u with
    | some (cand, _) =>
      match jsonParseL cand with
      | some j => .ok j
      | none => .error "SyntaxError"
    | none =>
      match jsonParseL (repairCandidate u) with
      | some j => .ok j
      | none => .error "SyntaxError"

def extractJSON (raw : String) : Except String Json := extractJSONL raw.data

/-! Rasterizer helpers: embedding of normalizeMime, smartResize,
compressImage and pdfToImageBase64 from src/unnamed/part_000 lines 42-122.
Canvas pixel arithmetic is modelled over the rationals; Math.round is
floor of the value plus one half (round half up, as in JS for the
non-negative values that arise here).  The JPEG encoding a canvas performs
is environmental and is abstracted as a function parameter from the resize
parameters to the base64 payload. -/

def jsRound (q : ℚ) : ℤ := Int.floor (q + 1 / 2)

/- normalizeMime (lines 42-51): prefer the declared type, consult the file
extension only in the PDF clause, default to jpeg. -/
/- ASCII lower-casing of a string (String.prototype.toLowerCase on the
inputs in play). -/
def toLowerStr (s : String) : String := String.mk (s.data.map Char.toLower)

/- name.split(".").pop(): the substring after the last dot (the whole name
when no dot occurs). -/
def fileExtSeg (name : String) : String :=
  String.mk (name.data.foldl (fun acc c => if c = '.' then [] else acc ++ [c]) [])

def normalizeMime (ftype fname : String) : String :=
  let t := toLowerStr ftype
  let ext := toLowerStr (fileExtSeg fname)
  if t = "application/pdf" || ext = "pdf" then "application/pdf"
  else if t = "image/jpeg" || t = "image/jpg" then "image/jpeg"
  else if t = "image/png" then "image/png"
  else if t = "image/webp" then "image/webp"
  else if t = "image/gif" then "image/gif"
  else "image/jpeg"

/- smartResize (lines 53-70), dimension part: the scale chosen for a
canvas of the given width and height under a long-edge cap and a
minimum-width floor, and the resulting rounded output dimensions. -/
def smartResizeScale (w h : ℕ) (maxLong minWidth : ℕ) : ℚ :=
  if h > w then
    if (w : ℚ) * min ((maxLong : ℚ) / h) 1 < minWidth then (minWidth : ℚ) / w
    else min ((maxLong : ℚ) / h) 1
  else min ((maxLong : ℚ) / w) 1

def smartResizeDims (w h : ℕ) (maxLong minWidth : ℕ) : ℤ × ℤ :=
  let scale := smartResizeScale w h maxLong minWidth
  (jsRound (w * scale), jsRound (h * scale))

/- The produced data URL is always requested as image/jpeg (line 69);
the encoder abstracts canvas.toDataURL restricted to its variable
parameters (long-edge cap, minimum width, quality). -/
structure RasterOut where
  base64 : String
  mediaType : String

/- compressImage quality ladder (lines 87-90). -/
def compressImage (enc : ℕ → ℕ → ℚ → String) : RasterOut :=
  let b1 := enc 2000 900 (82 / 100)
  let b2 := if (b1.length : ℚ) * (75 / 100) > 700 * 1024 then enc 2000 900 (65 / 100) else b1
  let b3 := if (b2.length : ℚ) * (75 / 100) > 700 * 1024 then enc 1600 800 (60 / 100) else b2
  ⟨b3, "image/jpeg"⟩

/- pdfToImageBase64 quality ladder (lines 118-121). -/
def pdfToImageBase64 (enc : ℕ → ℕ → ℚ → String) : RasterOut :=
  let b1 := enc 2000 900 (85 / 100)
  let b2 := if (b1.length : ℚ) * (75 / 100) > 700 * 1024 then enc 2000 900 (70 / 100) else b1
  let b3 := if (b2.length : ℚ) * (75 / 100) > 700 * 1024 then enc 1600 800 (60 / 100) else b2
  ⟨b3, "image/jpeg"⟩

/- The rasterization stage of extractInvoice (lines 146-151): PDF inputs go
through the PDF path, every other input through the image path. -/
def rasterizeStage (mime : String) (encImg encPdf : ℕ → ℕ → ℚ → String) : RasterOut :=
  if mime = "application/pdf" then pdfToImageBase64 encPdf else compressImage encImg

/-! Field coercion: embedding of the FIELDS key set (lines 5-20) and of the
coercion step of extractInvoice (lines 180-181):

  const form = Object.fromEntries(FIELDS.map(f => [f.key, parsed[f.key] || ""]));
  return { form, lineItems: Array.isArray(parsed.lineItems) ? parsed.lineItems : [] };
-/

def fieldKeys : List String :=
  ["invoiceNo", "invoiceDate", "dueDate", "paymentTerms",
   "vendorName", "vendorAddress", "billToName", "billToAddress",
   "amount", "currency", "taxAmount", "poNumber",
   "description", "bankDetails"]

/- parsed[key] || "" -/
def jsOrEmpty (o : Option Json) : Json :=
  match o with
  | some v => if jsTruthy v then v else .str ""
  | none => .str ""

structure InvoiceRecord where
  form : List (String × Json)
  lineItems : List Json

def coerceInvoice (parsed : Json) : InvoiceRecord :=
  { form := fieldKeys.map (fun k => (k, jsOrEmpty (jsGet parsed k)))
  , lineItems :=
      match jsGet parsed "lineItems" with
      | some (.arr l) => l
      | _ => [] }

/- First-match association lookup, as Object.fromEntries plus property
access behaves on the distinct FIELDS keys. -/
def assocFind (l : List (String × Json)) (k : String) : Option Json :=
  match l with
  | [] => none
  | (k2, v) :: r => if k2 = k then some v else assocFind r k

/-! Provider clients and serverless handlers.

Upstream models the awaited pair (res, data) of one fetch to a provider
API: res.ok, res.status and the decoded JSON body.  The network transport
itself is environmental; each client is embedded as its response-processing
logic over an arbitrary Upstream value. -/

structure Upstream where
  ok : Bool
  status : Nat
  data : Json

structure ProviderOk where
  provider : String
  content : Json

structure HRes where
  status : Nat
  body : Json

/- data?.error?.message || JSON.stringify(data), coerced to text as a
template literal does. -/
def errMsgOf (data : Json) : String :=
  match (jsGet data "error").bind (fun e => jsGet e "message") with
  | some v => if jsTruthy v then jsTemplate v else jsonStringify data
  | none => jsonStringify data

/- Truthiness of v.length for the values that reach the content checks:
arrays and strings have a length, everything else yields undefined. -/
def jsLenTruthy (o : Option Json) : Bool :=
  match o with
  | some (.arr l) => !l.isEmpty
  | some (.str s) => s ≠ ""
  | _ => false

/- data?.candidates?.[0]?.content?.parts?.[0]?.text -/
def geminiTextRaw (data : Json) : Option Json :=
  ((((jsGet data "candidates").bind jsIndex0).bind
      (fun c => jsGet c "content")).bind
      (fun c => jsGet c "parts")).bind jsIndex0 |>.bind (fun p => jsGet p "text")

/- data?.candidates?.[0]?.finishReason || "unknown" -/
def geminiFinishReason (data : Json) : String :=
  match ((jsGet data "candidates").bind jsIndex0).bind (fun c => jsGet c "finishReason") with
  | some v => if jsTruthy v then jsTemplate v else "unknown"
  | none => "unknown"

namespace ExtractJs
/-! Embedding of src/extract.js (the failover serverless function). -/

/- callAnthropic, lines 16-42. -/
def callAnthropic (u : Upstream) : Except String ProviderOk :=
  if !u.ok then
    .error ("Anthropic " ++ toString u.status ++ ": " ++ errMsgOf u.data)
  else if !jsLenTruthy (jsGet u.data "content") then
    .error "Anthropic returned empty content"
  else
    .ok ⟨"anthropic", (jsGet u.data "content").getD Json.null⟩

/- callGemini, lines 45-76. -/
def callGemini (u : Upstream) : Except String ProviderOk :=
  if !u.ok then
    .error ("Gemini " ++ toString u.status ++ ": " ++ errMsgOf u.data)
  else
    match (geminiTextRaw u.data).bind (fun v => if jsTruthy v then some v else none) with
    | none =>
      .error ("Gemini returned empty content (finishReason: "
        ++ geminiFinishReason u.data ++ ")")
    | some t =>
      .ok ⟨"gemini", Json.arr [Json.obj [("type", Json.str "text"), ("text", t)]]⟩

end ExtractJs

/- The POST body of one extraction request; absent fields are the empty
string (undefined and the empty string are equally falsy here). -/
structure ReqBody where
  imageBase64 : String
  mediaType : String
  prompt : String

def noKeyMsg : String :=
  "No API key configured. Add ANTHROPIC_API_KEY or GEMINI_API_KEY in Vercel → Settings → Environment Variables."

def missingFieldsMsg : String := "Missing fields: imageBase64, mediaType, prompt"

/- Math.round(imageBase64.length * 0.75 / 1024), computed exactly over the
integers: round-half-up of 3len/4096 is the integer quotient of 3len + 2048
by 4096 (the float computation is exact for every length that can arise).
The lemma approxKB_eq below ties this to the rational rounding model. -/
def approxKB (len : ℕ) : ℕ := (3 * len + 2048) / 4096

def errBody (msg : String) : Json := Json.obj [("error", Json.str msg)]

/- The unified success body; usedFallback appears only when the fallback
path produced the result. -/
def okBody (r : ProviderOk) (fb : Bool) : Json :=
  Json.obj ([("provider", Json.str r.provider), ("content", r.content)]
    ++ if fb then [("usedFallback", Json.bool true)] else [])

namespace ExtractJs

/- handler, lines 79-133.  The two environment keys are strings with the
empty string standing for an unset variable; aUp and gUp are the upstream
responses the two clients would observe if called. -/
def handler (method : String) (anthropicKey geminiKey : String)
    (body : Option ReqBody) (aUp gUp : Upstream) : HRes :=
  if method ≠ "POST" then ⟨405, errBody "Method not allowed"⟩
  else if anthropicKey = "" && geminiKey = "" then ⟨500, errBody noKeyMsg⟩
  else
    let b := body.getD ⟨"", "", ""⟩
    if b.imageBase64 = "" || b.mediaType = "" || b.prompt = "" then
      ⟨400, errBody missingFieldsMsg⟩
    else if approxKB b.imageBase64.length > 5120 then
      ⟨413, errBody ("Image too large (" ++ toString (approxKB b.imageBase64.length)
        ++ "KB). Max ~5MB.")⟩
    else
      let useAnthropic := anthropicKey ≠ ""
      match (if useAnthropic then callAnthropic aUp else callGemini gUp) with
      | .ok r => ⟨200, okBody r false⟩
      | .error e1 =>
        if useAnthropic && geminiKey ≠ "" then
          match callGemini gUp with
          | .ok f => ⟨200, okBody f true⟩
          | .error e2 =>
            ⟨502, errBody ("Both providers failed.\nAnthropic: " ++ e1
              ++ "\nGemini: " ++ e2)⟩
        else ⟨502, errBody e1⟩

end ExtractJs

namespace ApiExtractJs
/-! Embedding of the second document in src/api/extract.js (the
Anthropic-primary, Gemini-fallback variant), lines 92-225. -/

/- callAnthropic, lines 92-132. -/
def callAnthropic (u : Upstream) : Except String ProviderOk :=
  if !u.ok then
    .error ("Anthropic HTTP " ++ toString u.status ++ ": " ++ errMsgOf u.data)
  else if jsTruthy ((jsGet u.data "error").getD Json.null) then
    .error ("Anthropic API error: "
      ++ (match (jsGet u.data "error").bind (fun e => jsGet e "message") with
          | some v =>
            if jsTruthy v then jsTemplate v
            else jsonStringify ((jsGet u.data "error").getD Json.null)
          | none => jsonStringify ((jsGet u.data "error").getD Json.null)))
  else if (match jsGet u.data "stop_reason" with
           | some (Json.str s) => s = "error"
           | _ => false)
      || !jsLenTruthy (jsGet u.data "content") then
    .error ("Anthropic returned no content (stop_reason: "
      ++ (match jsGet u.data "stop_reason" with
          | some v => jsTemplate v
          | none => "undefined") ++ ")")
  else
    .ok ⟨"anthropic", (jsGet u.data "content").getD Json.null⟩

/- callGemini, lines 135-169. -/
def callGemini (u : Upstream) : Except String ProviderOk :=
  if !u.ok then
    .error ("Gemini HTTP " ++ toString u.status ++ ": " ++ errMsgOf u.data)
  else
    match (geminiTextRaw u.data).bind (fun v => if jsTruthy v then some v else none) with
    | none =>
      .error ("Gemini returned empty content (finishReason: "
        ++ geminiFinishReason u.data ++ ")")
    | some t =>
      .ok ⟨"gemini", Json.arr [Json.obj [("type", Json.str "text"), ("text", t)]]⟩

/- handler, lines 172-225: try Anthropic when its key is set; on failure
return its error when no Gemini key exists, otherwise fall through to the
Gemini block, whose error alone reaches the caller. -/
def handler (method : String) (anthropicKey geminiKey : String)
    (body : Option ReqBody) (aUp gUp : Upstream) : HRes :=
  if method ≠ "POST" then ⟨405, errBody "Method not allowed"⟩
  else if anthropicKey = "" && geminiKey = "" then ⟨500, errBody noKeyMsg⟩
  else
    let b := body.getD ⟨"", "", ""⟩
    if b.imageBase64 = "" || b.mediaType = "" || b.prompt = "" then
      ⟨400, errBody missingFieldsMsg⟩
    else if approxKB b.imageBase64.length > 5120 then
      ⟨413, errBody ("Image too large (" ++ toString (approxKB b.imageBase64.length)
        ++ "KB). Max ~5MB.")⟩
    else
      let geminiBlock : HRes :=
        match callGemini gUp with
        | .ok r => ⟨200, Json.obj [("provider", Json.str r.provider), ("content", r.content)]⟩
        | .error e => ⟨502, errBody ("Gemini failed: " ++ e)⟩
      if anthropicKey ≠ "" then
        match callAnthropic aUp with
        | .ok r => ⟨200, Json.obj [("provider", Json.str r.provider), ("content", r.content)]⟩
        | .error e =>
          if geminiKey = "" then ⟨502, errBody ("Anthropic failed: " ++ e)⟩
          else geminiBlock
      else geminiBlock

end ApiExtractJs

/-! Client pipeline: embedding of extractInvoice from src/unnamed/part_000
lines 145-189.  The pipeline rasterizes the file, POSTs to the serverless
handler, re-parses the handler response text, joins the content segments,
extracts the JSON and coerces the fields.  The order of its effects is
recorded as a step trace; the server is the embedded src/extract.js
handler, whose JSON reply is serialized to the rawText the client reads. -/

def EXTRACTION_PROMPT : String :=
  "You are an invoice data extractor. Your ENTIRE response must be a single valid JSON object — no prose, no markdown, no backticks, no explanation before or after.\n\n"
  ++ "Extract every field visible on this invoice and return this exact structure:\n"
  ++ "\x7b\"invoiceNo\":\"\",\"invoiceDate\":\"\",\"dueDate\":\"\",\"paymentTerms\":\"\",\"vendorName\":\"\",\"vendorAddress\":\"\",\"billToName\":\"\",\"billToAddress\":\"\",\"amount\":\"\",\"currency\":\"\",\"taxAmount\":\"\",\"poNumber\":\"\",\"description\":\"\",\"bankDetails\":\"\",\"lineItems\":[\x7b\"description\":\"\",\"qty\":\"\",\"unitPrice\":\"\",\"amount\":\"\"\x7d]\x7d\n\n"
  ++ "Rules:\n"
  ++ "- amounts: numeric string only e.g. \"4299.00\"\n"
  ++ "- dates: YYYY-MM-DD format\n"
  ++ "- currency: 3-letter code e.g. \"HKD\", \"USD\"\n"
  ++ "- lineItems: include ALL line items found; use [] if none\n"
  ++ "- Extract ALL text faithfully including Chinese/Japanese/Korean characters — do not skip or translate non-English text\n"
  ++ "- empty string \"\" for any field not present\n"
  ++ "- DO NOT wrap in markdown. Start your response with \x7b and end with \x7d"

/- One observable step of the client pipeline, in execution order. -/
inductive PStep where
  | rasterizePdf : PStep
  | rasterizeImage : PStep
  | apiCall : PStep
deriving DecidableEq

/- List-prefix test (String.prototype.startsWith). -/
def prefixOfL : List Char → List Char → Bool
  | [], _ => true
  | _ :: _, [] => false
  | a :: as2, b :: bs => a = b && prefixOfL as2 bs

/- Substring test (String.prototype.includes). -/
def containsSub (needle hay : List Char) : Bool :=
  match hay with
  | [] => needle.isEmpty
  | _ :: t => prefixOfL needle hay || containsSub needle t

/- c.text || "" under the join, which coerces each element to text. -/
def partText (c : Json) : String :=
  match jsGet c "text" with
  | some v => if jsTruthy v then jsTemplate v else ""
  | none => ""

/- data.content.map(c => c.text || "").join("") -/
def rawTextOf (content : Json) : String :=
  match content with
  | .arr l => String.join (l.map partText)
  | _ => ""

/- The response processing of extractInvoice (lines 154-188) for one
fetched status and body text, including both catch blocks.  A JSON.parse
SyntaxError message always begins with the token "Unexpected" (as the
inner catch relies on); the model uses that token as the message. -/
def pipeAfterFetch (status : Nat) (rawText : String) : Except String InvoiceRecord :=
  let rt := rawText.data
  let inner : Except String InvoiceRecord :=
    if !(decide (200 ≤ status) && decide (status < 300)) then
      .error
        (match jsonParseL rt with
         | some e =>
           let m :=
             match (jsGet e "error").bind (fun v => if jsTruthy v then some v else none) with
             | some v => jsTemplate v
             | none =>
               match (jsGet e "message").bind (fun v => if jsTruthy v then some v else none) with
               | some v => jsTemplate v
               | none => "Server error " ++ toString status
           if m ≠ "" && !prefixOfL "Unexpected".data m.data then m
           else "Server error " ++ toString status ++ ": " ++ String.mk (rt.take 200)
         | none => "Server error " ++ toString status ++ ": " ++ String.mk (rt.take 200))
    else
      match jsonParseL rt with
      | none => .error "Unexpected token"
      | some data =>
        if jsTruthy ((jsGet data "error").getD Json.null) then
          .error
            (match jsGet data "error" with
             | some ev =>
               (match (jsGet ev "message").bind (fun v => if jsTruthy v then some v else none) with
                | some v => jsTemplate v
                | none => jsonStringify ev)
             | none => "")
        else if !jsLenTruthy (jsGet data "content") then
          .error "Empty response from API"
        else
          match jsGet data "content" with
          | some (Json.arr l) =>
            (match extractJSONL (String.join (l.map partText)).data with
             | .error pe => .error pe
             | .ok parsed => .ok (coerceInvoice parsed))
          | _ => .error "data.content.map is not a function"
  match inner with
  | .ok v => .ok v
  | .error msg =>
    if rawText ≠ "" && !containsSub (rt.take 20) msg.data then
      .error (msg ++ "\n\nRaw: " ++ String.mk (rt.take 200))
    else .error msg

/- extractInvoice end to end: mime detection, rasterization (the encoded
payload is the abstract rastB64), the POST to /api/extract served by the
embedded src/extract.js handler, and the response processing.  The
returned trace lists the observable steps in execution order. -/
def extractInvoicePipe (ftype fname : String) (rastB64 : String)
    (anthropicKey geminiKey : String) (aUp gUp : Upstream) :
    List PStep × Except String InvoiceRecord :=
  let mime := normalizeMime ftype fname
  let isPdf := mime = "application/pdf"
  let step1 := if isPdf then PStep.rasterizePdf else PStep.rasterizeImage
  let hres := ExtractJs.handler "POST" anthropicKey geminiKey
    (some ⟨rastB64, "image/jpeg", EXTRACTION_PROMPT⟩) aUp gUp
  ([step1, PStep.apiCall], pipeAfterFetch hres.status (jsonStringify hres.body))

/-! Infrastructure for reasoning about the fence-stripping passes.  A pass
is characterized by run predicates quantified over every sufficient fuel,
and a boolean head test mirroring the seven-character fence pattern. -/

/- The first fence regex matches at the head of the list. -/
def fenceJsonAt (l : List Char) : Bool :=
  l.take 3 = [btick, btick, btick]
    && ((l.drop 3).take 4).map Char.toLower = ['j', 's', 'o', 'n']

/- The second fence regex matches at the head of the list. -/
def fenceBareAt (l : List Char) : Bool :=
  l.take 3 = [btick, btick, btick]

/- The first pass, started in the given state on the given list, produces
the given output under every sufficient fuel. -/
def SfjRun (sk : Bool) (l out : List Char) : Prop :=
  ∀ fu, l.length ≤ fu → stripFenceJsonGo fu sk l = out

/- The second pass, started in the given state on the given list, produces
the given output under every sufficient fuel. -/
def SfbRun (sk : Bool) (l out : List Char) : Prop :=
  ∀ fu, l.length ≤ fu → stripFenceBareGo fu sk l = out

/-! Helper lemmas. -/

/- The integer size estimate agrees with Math.round over the rationals. -/
theorem approxKB_eq (len : ℕ) :
    (approxKB len : ℤ) = jsRound ((len : ℚ) * (75 / 100) / 1024) := by
  unfold approxKB jsRound
  have h : (len : ℚ) * (75 / 100) / 1024 + 1 / 2
      = ((3 * len + 2048 : ℤ) : ℚ) / ((4096 : ℕ) : ℚ) := by
    push_cast
    ring
  rw [h, Rat.floor_intCast_div_natCast]
  omega

theorem jsRound_mono {p q : ℚ} (hpq : p ≤ q) : jsRound p ≤ jsRound q :=
  Int.floor_le_floor (by linarith)

theorem jsRound_natCast (n : ℕ) : jsRound (n : ℚ) = n := by
  unfold jsRound
  rw [Int.floor_eq_iff]
  constructor
  · push_cast
    linarith
  · push_cast
    linarith

theorem smartResizeScale_le_one (w h maxLong minWidth : ℕ)
    (hcase : h ≤ w ∨ minWidth ≤ w) :
    smartResizeScale w h maxLong minWidth ≤ 1 := by
  unfold smartResizeScale
  split
  · rename_i hp
    have hmw : minWidth ≤ w := by
      rcases hcase with hc | hc
      · omega
      · exact hc
    split
    · exact div_le_one_of_le (by exact_mod_cast hmw) (by positivity)
    · exact min_le_right _ _
  · exact min_le_right _ _

theorem jsOrEmpty_ne_null (o : Option Json) : jsOrEmpty o ≠ Json.null := by
  unfold jsOrEmpty
  rcases o with _ | v
  · simp
  · simp only
    split
    · rename_i ht
      intro he
      subst he
      simp [jsTruthy] at ht
    · simp

theorem assocFind_mem {l : List (String × Json)} {k : String} {v : Json}
    (h : assocFind l k = some v) : (k, v) ∈ l := by
  induction l with
  | nil => simp [assocFind] at h
  | cons p r ih =>
    obtain ⟨k2, v2⟩ := p
    unfold assocFind at h
    split at h
    · rename_i he
      cases h
      subst he
      exact List.mem_cons_self _ _
    · exact List.mem_cons_of_mem _ (ih h)

/-! Claim theorems. -/

/-- Claim C1 (code_bug).  The claim (and the specification, including its
own worked example) state that the repair heuristic turns a JSON object
truncated before its balanced close into a structurally valid object with
the already-closed fields preserved.  On the specification's own example
input the code appends ALL missing close brackets before ALL missing close
braces, producing text whose inner line-item object is closed by a bracket;
JSON.parse rejects it and extractJSON throws instead of succeeding.  This
theorem evaluates the embedded code at that input: the repaired candidate
is the malformed text shown, the extraction fails, and JSON.parse indeed
rejects the repaired candidate. -/
theorem C1_truncation_repair_fails :
    repairCandidate ("\x7b\"invoiceNo\":\"A1\",\"lineItems\":[\x7b\"description\":\"x\",\"qty\":\"1\"").data
        = ("\x7b\"invoiceNo\":\"A1\",\"lineItems\":[\x7b\"description\":\"x\"]\x7d\x7d").data
    ∧ extractJSON "\x7b\"invoiceNo\":\"A1\",\"lineItems\":[\x7b\"description\":\"x\",\"qty\":\"1\""
        = .error "SyntaxError"
    ∧ jsonParse "\x7b\"invoiceNo\":\"A1\",\"lineItems\":[\x7b\"description\":\"x\"]\x7d\x7d" = none :=
  ⟨rfl, rfl, rfl⟩

/-- Claim C2, counterexample.  The claim quantifies over every well-formed
JSON object text wrapped in markdown fences: the object text here is the
well-formed object with a close brace inside a string value, its parse is
exhibited, yet extractJSON on the fenced text fails, because the brace-depth
scan counts the brace inside the string literal and truncates the candidate
there. -/
theorem C2_brace_in_string_counterexample :
    jsonParse "\x7b\"a\":\"\x7d\"\x7d" = some (Json.obj [("a", Json.str "\x7d")])
    ∧ extractJSON "```json\n\x7b\"a\":\"\x7d\"\x7d\n```" = .error "SyntaxError" :=
  ⟨rfl, rfl⟩

/-- Claim C3 (confirmed).  Coercion is a total function of the parsed
object.  For every parsed object: the output form carries exactly the fixed
field keys in order; each key maps to the parsed value when that value is
present and non-empty (JavaScript-truthy, the test the code performs) and
to the empty string otherwise; no value is ever null; and lineItems is the
parsed lineItems when it is an array and the empty list otherwise. -/
theorem C3_coercion_total (fs : List (String × Json)) :
    ((coerceInvoice (Json.obj fs)).form.map Prod.fst = fieldKeys)
    ∧ (∀ k, k ∈ fieldKeys →
        assocFind (coerceInvoice (Json.obj fs)).form k =
          some (match lookupLast fs k with
                | some v => if jsTruthy v then v else Json.str ""
                | none => Json.str ""))
    ∧ (∀ k v, assocFind (coerceInvoice (Json.obj fs)).form k = some v → v ≠ Json.null)
    ∧ ((coerceInvoice (Json.obj fs)).lineItems =
        match lookupLast fs "lineItems" with
        | some (Json.arr l) => l
        | _ => []) := by
  refine ⟨rfl, ?_, ?_, rfl⟩
  · intro k hk
    fin_cases hk <;> rfl
  · intro k v hv
    have hm := assocFind_mem hv
    simp only [coerceInvoice, List.mem_map] at hm
    obtain ⟨k2, _, heq⟩ := hm
    have : v = jsOrEmpty (jsGet (Json.obj fs) k2) := by
      have := congrArg Prod.snd heq
      simpa using this.symm
    rw [this]
    exact jsOrEmpty_ne_null _

/-- Claim C3 witness: the theorem applied to the empty parsed object and
the key amount. -/
theorem C3_coercion_total_witness :
    ("amount" ∈ fieldKeys)
    ∧ assocFind (coerceInvoice (Json.obj [])).form "amount" = some (Json.str "") :=
  ⟨by decide, (C3_coercion_total []).2.1 "amount" (by decide)⟩

/-- Claim C6, counterexample.  A portrait canvas of 100 by 200 pixels under
the long-edge cap 2000 and minimum-width floor 900 (the values compressImage
passes) is resized to 900 by 1800: the minimum-width override sets the scale
to 9, so the output long edge 1800 exceeds the input long edge 200 — the
resize policy upscales narrow portrait inputs. -/
theorem C6_portrait_upscale_counterexample :
    smartResizeDims 100 200 2000 900 = (900, 1800)
    ∧ ¬ (max (900 : ℤ) 1800 ≤ max (100 : ℤ) 200) := by
  constructor
  · have h1 : smartResizeScale 100 200 2000 900 = 9 := by
      unfold smartResizeScale
      norm_num [min_def]
    unfold smartResizeDims jsRound
    rw [h1]
    norm_num [Int.floor_eq_iff]
  · decide

/-- Claim C6 as amended: the resizer never upscales landscape or square
inputs, and never upscales a portrait input whose width is at least the
minimum-width floor; only a portrait input narrower than the floor can be
upscaled (to protect glyph legibility the code widens it to the floor). -/
theorem C6_no_upscale_amended (w h maxLong minWidth : ℕ)
    (hcase : h ≤ w ∨ minWidth ≤ w) :
    max (smartResizeDims w h maxLong minWidth).1 (smartResizeDims w h maxLong minWidth).2
      ≤ max (w : ℤ) (h : ℤ) := by
  have hs := smartResizeScale_le_one w h maxLong minWidth hcase
  unfold smartResizeDims
  simp only
  apply max_le
  · refine le_trans ?_ (le_max_left _ _)
    calc jsRound ((w : ℚ) * smartResizeScale w h maxLong minWidth)
        ≤ jsRound ((w : ℚ)) := jsRound_mono (mul_le_of_le_one_right (by positivity) hs)
      _ = (w : ℤ) := jsRound_natCast w
  · refine le_trans ?_ (le_max_right _ _)
    calc jsRound ((h : ℚ) * smartResizeScale w h maxLong minWidth)
        ≤ jsRound ((h : ℚ)) := jsRound_mono (mul_le_of_le_one_right (by positivity) hs)
      _ = (h : ℤ) := jsRound_natCast h

/-- Claim C6 witness: a landscape input is never enlarged. -/
theorem C6_no_upscale_witness :
    ((3 : ℕ) ≤ 4 ∨ (1 : ℕ) ≤ 4)
    ∧ max (smartResizeDims 4 3 2 1).1 (smartResizeDims 4 3 2 1).2 ≤ max (4 : ℤ) (3 : ℤ) :=
  ⟨Or.inl (by decide), C6_no_upscale_amended 4 3 2 1 (Or.inl (by decide))⟩

set_option maxRecDepth 8000 in
/-- Claim C7, counterexample.  The claim states the no-credential check
precedes any rasterization work.  In the code the rasterization happens in
the browser before the request ever reaches the serverless handler that
holds the credential check: with no key configured, the pipeline trace
still begins with an image rasterization step, and only the subsequent API
call fails with the no-key error. -/
theorem C7_rasterize_before_credential_check :
    (extractInvoicePipe "image/png" "a.png" "IMG" "" "" ⟨true, 200, Json.null⟩
        ⟨true, 200, Json.null⟩).1
      = [PStep.rasterizeImage, PStep.apiCall]
    ∧ ∃ m, (extractInvoicePipe "image/png" "a.png" "IMG" "" "" ⟨true, 200, Json.null⟩
        ⟨true, 200, Json.null⟩).2 = .error m
        ∧ containsSub "No API key configured".data m.data = true :=
  ⟨rfl, _, rfl, rfl⟩

/-- Claim C7 as amended: within the serverless handler the no-credential
check does fail fast — with no key configured the handler returns the
500 no-key error for every request body (even an invalid or oversized one)
and for every upstream state, before any body validation, size check or
provider attempt; rasterization, however, runs client-side before the
check. -/
theorem C7_no_key_fails_fast_amended (body : Option ReqBody) (aUp gUp : Upstream) :
    ExtractJs.handler "POST" "" "" body aUp gUp = ⟨500, errBody noKeyMsg⟩ := rfl

/-- Claim C8, counterexample.  The claim states that with an empty declared
type and extension png, webp or gif, the resolved type is the one named by
the extension.  The code consults the extension only in the PDF clause, so
a file with empty declared type and extension png resolves to the default
image/jpeg, not image/png. -/
theorem C8_extension_fallback_counterexample :
    normalizeMime "" "scan.png" = "image/jpeg"
    ∧ ("image/jpeg" : String) ≠ "image/png" :=
  ⟨rfl, by decide⟩

/-- Claim C8 as amended: type detection always resolves into the fixed
five-value set and never rejects; the declared MIME type is preferred for
the four image types; the file extension participates only in the PDF
clause (there is no extension fallback for png, webp or gif); every
unrecognized declared type resolves to the jpeg default regardless of the
extension, provided the extension is not pdf. -/
theorem C8_type_detection_amended (ftype fname : String) :
    (normalizeMime ftype fname = "application/pdf"
      ∨ normalizeMime ftype fname = "image/jpeg"
      ∨ normalizeMime ftype fname = "image/png"
      ∨ normalizeMime ftype fname = "image/webp"
      ∨ normalizeMime ftype fname = "image/gif")
    ∧ ((toLowerStr ftype = "application/pdf" ∨ toLowerStr (fileExtSeg fname) = "pdf")
        → normalizeMime ftype fname = "application/pdf")
    ∧ (toLowerStr (fileExtSeg fname) ≠ "pdf" →
        ((toLowerStr ftype = "image/jpeg" ∨ toLowerStr ftype = "image/jpg")
            → normalizeMime ftype fname = "image/jpeg")
        ∧ (toLowerStr ftype = "image/png" → normalizeMime ftype fname = "image/png")
        ∧ (toLowerStr ftype = "image/webp" → normalizeMime ftype fname = "image/webp")
        ∧ (toLowerStr ftype = "image/gif" → normalizeMime ftype fname = "image/gif")
        ∧ (toLowerStr ftype ∉ ["application/pdf", "image/jpeg", "image/jpg",
              "image/png", "image/webp", "image/gif"]
            → normalizeMime ftype fname = "image/jpeg")) := by
  unfold normalizeMime
  dsimp only
  refine ⟨?_, ?_, ?_⟩
  · split_ifs <;> simp
  · intro hp
    rcases hp with hp | hp <;> simp [hp]
  · intro hext
    refine ⟨?_, ?_, ?_, ?_, ?_⟩
    · intro ht
      rcases ht with ht | ht <;> simp [ht, hext]
    · intro ht
      simp [ht, hext]
    · intro ht
      simp [ht, hext]
    · intro ht
      simp [ht, hext]
    · intro ht
      simp only [List.mem_cons, List.mem_singleton, List.not_mem_nil] at ht
      push_neg at ht
      obtain ⟨h1, h2, h3, h4, h5, h6⟩ := ht
      simp [h1, h2, h3, h4, h5, h6, hext]

/-- Claim C8 witness: a declared webp type with a non-pdf extension is
preserved. -/
theorem C8_type_detection_witness :
    (toLowerStr (fileExtSeg "x.bin") ≠ "pdf")
    ∧ normalizeMime "IMAGE/WebP" "x.bin" = "image/webp" :=
  ⟨by decide, ((C8_type_detection_amended "IMAGE/WebP" "x.bin").2.2 (by decide)).2.2.1
    (by decide)⟩

/-- Claim C10 (confirmed).  Every RasterImage the rasterizer produces has
media type image/jpeg, for every input route: the PDF path and the image
path both hardcode the jpeg encoding, independent of the input type and of
whatever payload the canvas encoder yields at each quality step. -/
theorem C10_raster_always_jpeg (mime : String) (encImg encPdf : ℕ → ℕ → ℚ → String) :
    (rasterizeStage mime encImg encPdf).mediaType = "image/jpeg"
    ∧ (compressImage encImg).mediaType = "image/jpeg"
    ∧ (pdfToImageBase64 encPdf).mediaType = "image/jpeg" := by
  refine ⟨?_, rfl, rfl⟩
  unfold rasterizeStage
  split <;> rfl

/-- Claim C4, counterexample.  The claim covers both handler variants and
asserts that an all-providers-failed run surfaces one failure reason per
attempted provider.  In the src/api/extract.js variant with both keys
configured, when Anthropic fails (reason A_DOWN) and the Gemini fallback
also fails (reason G_DOWN), the response reports only the Gemini reason;
the Anthropic reason is dropped from the surfaced message. -/
theorem C4_api_variant_drops_anthropic_failure :
    ApiExtractJs.handler "POST" "k1" "k2" (some ⟨"img", "image/jpeg", "p"⟩)
        ⟨false, 500, Json.obj [("error", Json.obj [("message", Json.str "A_DOWN")])]⟩
        ⟨false, 500, Json.obj [("error", Json.obj [("message", Json.str "G_DOWN")])]⟩
      = ⟨502, errBody "Gemini failed: Gemini HTTP 500: G_DOWN"⟩
    ∧ containsSub "A_DOWN".data "Gemini failed: Gemini HTTP 500: G_DOWN".data = false :=
  ⟨rfl, rfl⟩

/-- Claim C4 as amended: the src/extract.js handler does aggregate — when
both providers are configured and both fail, the 502 message lists the
Anthropic reason and then the Gemini reason, in attempt order; when a
single provider is configured, its failure reason alone is surfaced.  The
src/api/extract.js variant preserves the single failure only in its
single-provider configurations; with both configured it reports only the
final Gemini reason (see the counterexample). -/
theorem C4_exhaustion_aggregate_amended
    (aKey gKey : String) (b : ReqBody) (aUp gUp : Upstream) (ea eg : String)
    (hb1 : b.imageBase64 ≠ "") (hb2 : b.mediaType ≠ "") (hb3 : b.prompt ≠ "")
    (hsize : ¬ approxKB b.imageBase64.length > 5120)
    (ha : ExtractJs.callAnthropic aUp = .error ea)
    (hg : ExtractJs.callGemini gUp = .error eg) :
    (aKey ≠ "" → gKey ≠ "" →
      ExtractJs.handler "POST" aKey gKey (some b) aUp gUp
        = ⟨502, errBody ("Both providers failed.\nAnthropic: " ++ ea ++ "\nGemini: " ++ eg)⟩)
    ∧ (aKey ≠ "" → gKey = "" →
      ExtractJs.handler "POST" aKey gKey (some b) aUp gUp = ⟨502, errBody ea⟩)
    ∧ (aKey = "" → gKey ≠ "" →
      ExtractJs.handler "POST" aKey gKey (some b) aUp gUp = ⟨502, errBody eg⟩) := by
  unfold ExtractJs.handler
  refine ⟨fun hA hG => ?_, fun hA hG => ?_, fun hA hG => ?_⟩ <;>
    simp [hA, hG, hb1, hb2, hb3, hsize, ha, hg]

/-- Claim C4 witness: the amended theorem at a concrete failing
configuration (both keys set). -/
theorem C4_exhaustion_aggregate_witness :
    ExtractJs.handler "POST" "k1" "k2" (some ⟨"img", "image/jpeg", "p"⟩)
        ⟨false, 500, Json.obj [("error", Json.obj [("message", Json.str "A_DOWN")])]⟩
        ⟨false, 500, Json.obj [("error", Json.obj [("message", Json.str "G_DOWN")])]⟩
      = ⟨502, errBody ("Both providers failed.\nAnthropic: Anthropic 500: A_DOWN"
          ++ "\nGemini: Gemini 500: G_DOWN")⟩ :=
  (C4_exhaustion_aggregate_amended "k1" "k2" ⟨"img", "image/jpeg", "p"⟩
      ⟨false, 500, Json.obj [("error", Json.obj [("message", Json.str "A_DOWN")])]⟩
      ⟨false, 500, Json.obj [("error", Json.obj [("message", Json.str "G_DOWN")])]⟩
      "Anthropic 500: A_DOWN" "Gemini 500: G_DOWN"
      (by decide) (by decide) (by decide) (by decide) rfl rfl).1
    (by decide) (by decide)

/- The Gemini client always tags its result with the gemini identity. -/
theorem callGemini_ok_provider {u : Upstream} {r : ProviderOk}
    (h : ExtractJs.callGemini u = .ok r) : r.provider = "gemini" := by
  unfold ExtractJs.callGemini at h
  split at h
  · cases h
  · split at h
    · cases h
    · cases h
      rfl

/-- Claim C5 (confirmed).  With both credentials configured, when the
primary Anthropic attempt fails and the Gemini fallback succeeds, the
handler returns 200 with the fallback result tagged provider gemini and
with usedFallback true — the marker recording that exactly the one primary
attempt failed (the response carries this flag rather than a literal list).
With only the Gemini credential configured, Gemini is attempted directly as
primary and its result is returned without the fallback marker. -/
theorem C5_fallback_identity
    (aKey gKey : String) (b : ReqBody) (aUp gUp : Upstream) (ea : String) (gr : ProviderOk)
    (hb1 : b.imageBase64 ≠ "") (hb2 : b.mediaType ≠ "") (hb3 : b.prompt ≠ "")
    (hsize : ¬ approxKB b.imageBase64.length > 5120)
    (hg : ExtractJs.callGemini gUp = .ok gr) :
    (aKey ≠ "" → gKey ≠ "" → ExtractJs.callAnthropic aUp = .error ea →
      ExtractJs.handler "POST" aKey gKey (some b) aUp gUp
        = ⟨200, Json.obj [("provider", Json.str "gemini"), ("content", gr.content),
            ("usedFallback", Json.bool true)]⟩)
    ∧ (gKey ≠ "" →
      ExtractJs.handler "POST" "" gKey (some b) aUp gUp
        = ⟨200, Json.obj [("provider", Json.str "gemini"), ("content", gr.content)]⟩) := by
  have hprov := callGemini_ok_provider hg
  constructor
  · intro hA hG ha
    unfold ExtractJs.handler
    simp [hA, hG, hb1, hb2, hb3, hsize, ha, hg, okBody, hprov]
  · intro hG
    unfold ExtractJs.handler
    simp [hG, hb1, hb2, hb3, hsize, hg, okBody, hprov]

/-- Claim C5 witness: the fallback case and the direct-Gemini case at a
concrete configuration. -/
theorem C5_fallback_identity_witness :
    ExtractJs.handler "POST" "k1" "k2" (some ⟨"img", "image/jpeg", "p"⟩)
        ⟨false, 500, Json.null⟩
        ⟨true, 200, Json.obj [("candidates", Json.arr [Json.obj [("content",
          Json.obj [("parts", Json.arr [Json.obj [("text", Json.str "OK")]])])]])]⟩
      = ⟨200, Json.obj [("provider", Json.str "gemini"),
          ("content", Json.arr [Json.obj [("type", Json.str "text"), ("text", Json.str "OK")]]),
          ("usedFallback", Json.bool true)]⟩ :=
  (C5_fallback_identity "k1" "k2" ⟨"img", "image/jpeg", "p"⟩
      ⟨false, 500, Json.null⟩
      ⟨true, 200, Json.obj [("candidates", Json.arr [Json.obj [("content",
        Json.obj [("parts", Json.arr [Json.obj [("text", Json.str "OK")]])])]])]⟩
      "Anthropic 500: null" ⟨"gemini", Json.arr [Json.obj [("type", Json.str "text"),
        ("text", Json.str "OK")]]⟩
      (by decide) (by decide) (by decide) (by decide) rfl).1
    (by decide) (by decide) rfl

/-- Claim C9, counterexample.  The claim asserts that for a Gemini response
whose first candidate splits the completion across multiple parts, the
normalized rawText is the in-order concatenation of every part.  With two
parts A and B, the client keeps only the first: the normalized content is a
single segment with text A, and the rawText the frontend joins from it is
A, not AB. -/
theorem C9_gemini_multipart_counterexample :
    ExtractJs.callGemini ⟨true, 200, Json.obj [("candidates", Json.arr [Json.obj [("content",
        Json.obj [("parts", Json.arr [Json.obj [("text", Json.str "A")],
          Json.obj [("text", Json.str "B")]])])]])]⟩
      = .ok ⟨"gemini", Json.arr [Json.obj [("type", Json.str "text"), ("text", Json.str "A")]]⟩
    ∧ rawTextOf (Json.arr [Json.obj [("type", Json.str "text"), ("text", Json.str "A")]]) = "A"
    ∧ ("A" : String) ≠ "AB" :=
  ⟨rfl, rfl, by decide⟩

/-- Claim C9 as amended: each client normalizes success into a provider
identity plus content whose joined text is the rawText.  For Anthropic the
content array is passed through whole, so the rawText is the in-order
concatenation of every content segment.  For Gemini the client reads only
the FIRST part of the first candidate: the normalized content is the single
segment holding that first text (parts beyond the first are dropped), and
the call fails instead when that first text is absent or empty. -/
theorem C9_normalization_amended :
    (∀ (u : Upstream) (r : ProviderOk), ExtractJs.callGemini u = .ok r →
      r.provider = "gemini"
      ∧ ∃ t, geminiTextRaw u.data = some t ∧ jsTruthy t = true
          ∧ r.content = Json.arr [Json.obj [("type", Json.str "text"), ("text", t)]]
          ∧ rawTextOf r.content = jsTemplate t)
    ∧ (∀ (u : Upstream) (r : ProviderOk) (l : List Json),
        ExtractJs.callAnthropic u = .ok r → r.content = Json.arr l →
        r.provider = "anthropic"
        ∧ rawTextOf r.content = String.join (l.map partText)) := by
  constructor
  · intro u r h
    unfold ExtractJs.callGemini at h
    split at h
    · cases h
    · rename_i hok
      rcases hmt : (geminiTextRaw u.data).bind
          (fun v => if jsTruthy v then some v else none) with _ | t
      · rw [hmt] at h
        cases h
      · rw [hmt] at h
        cases h
        rcases hraw : geminiTextRaw u.data with _ | t0
        · rw [hraw] at hmt
          cases hmt
        · rw [hraw] at hmt
          have hmt2 : (if jsTruthy t0 then some t0 else none) = some t := hmt
          split at hmt2
          · rename_i htr
            cases hmt2
            refine ⟨rfl, t, rfl, htr, rfl, ?_⟩
            have hre : rawTextOf (Json.arr [Json.obj [("type", Json.str "text"), ("text", t)]])
                = if jsTruthy t then jsTemplate t else "" := rfl
            rw [hre, if_pos htr]
          · cases hmt2
  · intro u r l h hc
    unfold ExtractJs.callAnthropic at h
    split at h
    · cases h
    · split at h
      · cases h
      · cases h
        refine ⟨rfl, ?_⟩
        rw [hc]
        rfl

/-- Claim C9 witness: the amended theorem applied to the two-part Gemini
response and to a two-segment Anthropic response. -/
theorem C9_normalization_witness :
    (∃ t, geminiTextRaw (Json.obj [("candidates", Json.arr [Json.obj [("content",
        Json.obj [("parts", Json.arr [Json.obj [("text", Json.str "A")],
          Json.obj [("text", Json.str "B")]])])]])]) = some t ∧ jsTruthy t = true
      ∧ (Json.arr [Json.obj [("type", Json.str "text"), ("text", Json.str "A")]] : Json)
          = Json.arr [Json.obj [("type", Json.str "text"), ("text", t)]]
      ∧ rawTextOf (Json.arr [Json.obj [("type", Json.str "text"), ("text", Json.str "A")]])
          = jsTemplate t)
    ∧ rawTextOf (Json.arr [Json.obj [("type", Json.str "text"), ("text", Json.str "X")],
        Json.obj [("type", Json.str "text"), ("text", Json.str "Y")]])
      = String.join ([Json.obj [("type", Json.str "text"), ("text", Json.str "X")],
          Json.obj [("type", Json.str "text"), ("text", Json.str "Y")]].map partText) :=
  ⟨((C9_normalization_amended.1
      ⟨true, 200, Json.obj [("candidates", Json.arr [Json.obj [("content",
        Json.obj [("parts", Json.arr [Json.obj [("text", Json.str "A")],
          Json.obj [("text", Json.str "B")]])])]])]⟩
      ⟨"gemini", Json.arr [Json.obj [("type", Json.str "text"), ("text", Json.str "A")]]⟩
      rfl).2),
   ((C9_normalization_amended.2
      ⟨true, 200, Json.obj [("content", Json.arr [Json.obj [("type", Json.str "text"),
        ("text", Json.str "X")], Json.obj [("type", Json.str "text"), ("text", Json.str "Y")]])]⟩
      ⟨"anthropic", Json.arr [Json.obj [("type", Json.str "text"), ("text", Json.str "X")],
        Json.obj [("type", Json.str "text"), ("text", Json.str "Y")]]⟩
      [Json.obj [("type", Json.str "text"), ("text", Json.str "X")],
        Json.obj [("type", Json.str "text"), ("text", Json.str "Y")]]
      rfl rfl).2)⟩

/-! Lemmas on the fence-stripping passes, toward the amended parser
round-trip. -/

theorem sfjRun_nil (sk : Bool) : SfjRun sk [] [] := by
  intro fu _
  cases fu <;> rfl

theorem sfbRun_nil (sk : Bool) : SfbRun sk [] [] := by
  intro fu _
  cases fu <;> rfl

theorem fenceJsonAt_cons7 (a b c c1 c2 c3 c4 : Char) (r : List Char) :
    fenceJsonAt (a :: b :: c :: c1 :: c2 :: c3 :: c4 :: r)
      = (a = btick && b = btick && c = btick
          && c1.toLower = 'j' && c2.toLower = 's'
          && c3.toLower = 'o' && c4.toLower = 'n') := by
  rw [Bool.eq_iff_iff]
  simp [fenceJsonAt]
  tauto

theorem fenceJsonAt_of_ne {a : Char} (m : List Char) (ha : a ≠ btick) :
    fenceJsonAt (a :: m) = false := by
  unfold fenceJsonAt
  simp [ha]

theorem fenceBareAt_of_ne {a : Char} (m : List Char) (ha : a ≠ btick) :
    fenceBareAt (a :: m) = false := by
  unfold fenceBareAt
  simp [ha]

theorem sfjRun_keep {a : Char} {m out : List Char}
    (hf : fenceJsonAt (a :: m) = false) (h : SfjRun false m out) :
    SfjRun false (a :: m) (a :: out) := by
  intro fu hfu
  cases fu with
  | zero => simp at hfu
  | succ f =>
    have hm : m.length ≤ f := by
      simp only [List.length_cons] at hfu
      omega
    unfold stripFenceJsonGo
    simp only [Bool.false_and, Bool.false_eq_true, if_false]
    rcases m with _ | ⟨b, _ | ⟨c, _ | ⟨c1, _ | ⟨c2, _ | ⟨c3, _ | ⟨c4, r⟩⟩⟩⟩⟩⟩ <;>
      simp only [] <;>
      first
      | exact congrArg (a :: ·) (h f hm)
      | · rw [fenceJsonAt_cons7] at hf
          rw [hf]
          simp only [Bool.false_eq_true, if_false]
          exact congrArg (a :: ·) (h f hm)

theorem sfbRun_keep {a : Char} {m out : List Char}
    (hf : fenceBareAt (a :: m) = false) (h : SfbRun false m out) :
    SfbRun false (a :: m) (a :: out) := by
  intro fu hfu
  cases fu with
  | zero => simp at hfu
  | succ f =>
    have hm : m.length ≤ f := by
      simp only [List.length_cons] at hfu
      omega
    unfold stripFenceBareGo
    simp only [Bool.false_and, Bool.false_eq_true, if_false]
    rcases m with _ | ⟨b, _ | ⟨c, r⟩⟩ <;>
      simp only [] <;>
      first
      | exact congrArg (a :: ·) (h f hm)
      | · have hf2 : (a = btick && b = btick && c = btick) = false := by
            rw [Bool.eq_iff_iff]
            simp only [fenceBareAt] at hf
            simp at hf ⊢
            tauto
          rw [hf2]
          simp only [Bool.false_eq_true, if_false]
          exact congrArg (a :: ·) (h f hm)

theorem sfjRun_fence {r out : List Char} (sk : Bool) (h : SfjRun true r out) :
    SfjRun sk (btick :: btick :: btick :: 'j' :: 's' :: 'o' :: 'n' :: r) out := by
  intro fu hfu
  cases fu with
  | zero => simp at hfu
  | succ f =>
    have hr : r.length ≤ f := by
      simp only [List.length_cons] at hfu
      omega
    unfold stripFenceJsonGo
    have hws : (sk && isJsWs btick) = false := by
      cases sk <;> simp [isJsWs, btick]
    simp only [hws, Bool.false_eq_true, if_false]
    have hc : (decide True && decide True && decide True
        && decide ('j'.toLower = 'j') && decide ('s'.toLower = 's')
        && decide ('o'.toLower = 'o') && decide ('n'.toLower = 'n')) = true := by decide
    rw [if_pos hc]
    exact h f hr

theorem sfbRun_fence {r out : List Char} (sk : Bool) (h : SfbRun true r out) :
    SfbRun sk (btick :: btick :: btick :: r) out := by
  intro fu hfu
  cases fu with
  | zero => simp at hfu
  | succ f =>
    have hr : r.length ≤ f := by
      simp only [List.length_cons] at hfu
      omega
    unfold stripFenceBareGo
    have hws : (sk && isJsWs btick) = false := by
      cases sk <;> simp [isJsWs, btick]
    simp only [hws, Bool.false_eq_true, if_false]
    have hc : (decide True && decide True && decide True) = true := by decide
    rw [if_pos hc]
    exact h f hr

theorem sfjRun_skip_ws {a : Char} {m out : List Char} (hws : isJsWs a = true)
    (h : SfjRun true m out) : SfjRun true (a :: m) out := by
  intro fu hfu
  cases fu with
  | zero => simp at hfu
  | succ f =>
    have hm : m.length ≤ f := by
      simp only [List.length_cons] at hfu
      omega
    unfold stripFenceJsonGo
    simp only [hws, Bool.and_true, Bool.true_and, if_true]
    exact h f hm

theorem sfbRun_skip_ws {a : Char} {m out : List Char} (hws : isJsWs a = true)
    (h : SfbRun true m out) : SfbRun true (a :: m) out := by
  intro fu hfu
  cases fu with
  | zero => simp at hfu
  | succ f =>
    have hm : m.length ≤ f := by
      simp only [List.length_cons] at hfu
      omega
    unfold stripFenceBareGo
    simp only [hws, Bool.and_true, Bool.true_and, if_true]
    exact h f hm

theorem sfjRun_skip_exit {a : Char} {m out : List Char} (hws : isJsWs a = false)
    (ha : a ≠ btick) (h : SfjRun false m out) :
    SfjRun true (a :: m) (a :: out) := by
  intro fu hfu
  cases fu with
  | zero => simp at hfu
  | succ f =>
    have hm : m.length ≤ f := by
      simp only [List.length_cons] at hfu
      omega
    have hf := fenceJsonAt_of_ne m ha
    unfold stripFenceJsonGo
    simp only [hws, Bool.and_false, Bool.false_eq_true, if_false]
    rcases m with _ | ⟨b, _ | ⟨c, _ | ⟨c1, _ | ⟨c2, _ | ⟨c3, _ | ⟨c4, r⟩⟩⟩⟩⟩⟩ <;>
      simp only [] <;>
      first
      | exact congrArg (a :: ·) (h f hm)
      | · rw [fenceJsonAt_cons7] at hf
          rw [hf]
          simp only [Bool.false_eq_true, if_false]
          exact congrArg (a :: ·) (h f hm)

theorem sfbRun_skip_exit {a : Char} {m out : List Char} (hws : isJsWs a = false)
    (ha : a ≠ btick) (h : SfbRun false m out) :
    SfbRun true (a :: m) (a :: out) := by
  intro fu hfu
  cases fu with
  | zero => simp at hfu
  | succ f =>
    have hm : m.length ≤ f := by
      simp only [List.length_cons] at hfu
      omega
    have hf := fenceBareAt_of_ne m ha
    unfold stripFenceBareGo
    simp only [hws, Bool.and_false, Bool.false_eq_true, if_false]
    rcases m with _ | ⟨b, _ | ⟨c, r⟩⟩ <;>
      simp only [] <;>
      first
      | exact congrArg (a :: ·) (h f hm)
      | · have hf2 : (a = btick && b = btick && c = btick) = false := by
            rw [Bool.eq_iff_iff]
            simp only [fenceBareAt] at hf
            simp at hf ⊢
            tauto
          rw [hf2]
          simp only [Bool.false_eq_true, if_false]
          exact congrArg (a :: ·) (h f hm)

theorem sfjRun_append {xs m out : List Char} (hxs : ∀ c ∈ xs, c ≠ btick)
    (h : SfjRun false m out) : SfjRun false (xs ++ m) (xs ++ out) := by
  induction xs with
  | nil => simpa using h
  | cons a xs ih =>
    simp only [List.cons_append]
    exact sfjRun_keep (fenceJsonAt_of_ne _ (hxs a (by simp)))
      (ih (fun c hc => hxs c (by simp [hc])))

theorem sfbRun_append {xs m out : List Char} (hxs : ∀ c ∈ xs, c ≠ btick)
    (h : SfbRun false m out) : SfbRun false (xs ++ m) (xs ++ out) := by
  induction xs with
  | nil => simpa using h
  | cons a xs ih =>
    simp only [List.cons_append]
    exact sfbRun_keep (fenceBareAt_of_ne _ (hxs a (by simp)))
      (ih (fun c hc => hxs c (by simp [hc])))

theorem sfjRun_self {l : List Char} (h : ∀ c ∈ l, c ≠ btick) : SfjRun false l l := by
  have h2 := sfjRun_append h (sfjRun_nil false)
  simpa using h2

theorem sfbRun_self {l : List Char} (h : ∀ c ∈ l, c ≠ btick) : SfbRun false l l := by
  have h2 := sfbRun_append h (sfbRun_nil false)
  simpa using h2

theorem sfbRun_skipAll {post : List Char} (h : ∀ c ∈ post, c ≠ btick) :
    SfbRun true post (post.dropWhile isJsWs) := by
  induction post with
  | nil => exact sfbRun_nil true
  | cons a m ih =>
    by_cases hws : isJsWs a = true
    · rw [List.dropWhile_cons_of_pos hws]
      exact sfbRun_skip_ws hws (ih (fun c hc => h c (by simp [hc])))
    · rw [List.dropWhile_cons_of_neg hws]
      exact sfbRun_skip_exit (by simpa using hws) (h a (by simp))
        (sfbRun_self (fun c hc => h c (by simp [hc])))

theorem fenceJsonAt_no_j (c1 : Char) (hj : c1.toLower ≠ 'j') (b1 b2 b3 : Char)
    (ys : List Char) : fenceJsonAt (b1 :: b2 :: b3 :: c1 :: ys) = false := by
  unfold fenceJsonAt
  simp [hj]

theorem fenceJsonAt_third_ne (c : Char) (hc : c ≠ btick) (b1 b2 : Char)
    (ys : List Char) : fenceJsonAt (b1 :: b2 :: c :: ys) = false := by
  unfold fenceJsonAt
  simp [hc]

theorem fenceJsonAt_second_ne (c : Char) (hc : c ≠ btick) (b1 : Char)
    (ys : List Char) : fenceJsonAt (b1 :: c :: ys) = false := by
  unfold fenceJsonAt
  rcases ys with _ | ⟨y, ys⟩ <;> simp [hc]

theorem scanBal_append (e : List Char) :
    ∀ (l : List Char) (d : Int) (cand rest : List Char),
      scanBal d l = some (cand, rest) →
      scanBal d (l ++ e) = some (cand, rest ++ e) := by
  intro l
  induction l with
  | nil =>
    intro d cand rest h
    simp [scanBal] at h
  | cons a m ih =>
    intro d cand rest h
    rw [List.cons_append]
    unfold scanBal at h ⊢
    by_cases hbr : a = '\x7b'
    · rw [if_pos hbr] at h ⊢
      rcases hs : scanBal (d + 1) m with _ | ⟨p, r2⟩
      · rw [hs] at h
        simp at h
      · rw [hs] at h
        simp at h
        obtain ⟨hc, hr⟩ := h
        rw [ih (d + 1) p r2 hs]
        rw [← hc, ← hr]
    · rw [if_neg hbr] at h ⊢
      by_cases hcl : a = '\x7d'
      · rw [if_pos hcl] at h ⊢
        by_cases hd : d = 1
        · rw [if_pos hd] at h ⊢
          simp at h
          obtain ⟨hc, hr⟩ := h
          rw [← hc, ← hr]
        · rw [if_neg hd] at h ⊢
          rcases hs : scanBal (d - 1) m with _ | ⟨p, r2⟩
          · rw [hs] at h
            simp at h
          · rw [hs] at h
            simp at h
            obtain ⟨hc, hr⟩ := h
            rw [ih (d - 1) p r2 hs]
            rw [← hc, ← hr]
      · rw [if_neg hcl] at h ⊢
        rcases hs : scanBal d m with _ | ⟨p, r2⟩
        · rw [hs] at h
          simp at h
        · rw [hs] at h
          simp at h
          obtain ⟨hc, hr⟩ := h
          rw [ih d p r2 hs]
          rw [← hc, ← hr]

theorem dropWhile_append_head {p : Char → Bool} (xs : List Char)
    {ys : List Char} {b : Char} {t : List Char} (hy : ys = b :: t) (hb : p b = false) :
    List.dropWhile p (xs ++ ys) = List.dropWhile p xs ++ ys := by
  induction xs with
  | nil =>
    subst hy
    have hb2 : ¬ p b = true := by simp [hb]
    simp [List.dropWhile_cons_of_neg hb2]
  | cons a m ih =>
    by_cases hp : p a = true
    · rw [List.cons_append, List.dropWhile_cons_of_pos hp,
        List.dropWhile_cons_of_pos hp]
      exact ih
    · rw [List.cons_append, List.dropWhile_cons_of_neg (by simpa using hp),
        List.dropWhile_cons_of_neg (by simpa using hp)]
      rw [List.cons_append]

theorem dropWhile_eq_nil_of_all {p : Char → Bool} {xs : List Char}
    (h : ∀ c ∈ xs, p c = true) : List.dropWhile p xs = [] := by
  induction xs with
  | nil => rfl
  | cons a m ih =>
    rw [List.dropWhile_cons_of_pos (h a (by simp))]
    exact ih fun c hc => h c (by simp [hc])

/-- Claim C2 as amended.  For every well-formed JSON object text whose raw
brace-depth scan closes exactly at the end of the text (no stray brace
characters inside string literals) and which contains no backtick, wrapped
in a json-tagged markdown fence with leading prose free of backticks and
open braces and trailing prose free of backticks, extractJSON recovers
exactly the object the embedded text encodes.  The fences are the
seven-character json-tagged opening fence with its newline and the bare
closing fence on its own line; the object text is the list with head open
brace.  (The backtick character is btick throughout.) -/
theorem C2_wrapped_roundtrip_amended
    (pre t2 post : List Char) (j : Json)
    (hpre_bt : ∀ c ∈ pre, c ≠ btick) (hpre_br : ∀ c ∈ pre, c ≠ '\x7b')
    (ht_bt : ∀ c ∈ ('\x7b' :: t2), c ≠ btick)
    (hpost_bt : ∀ c ∈ post, c ≠ btick)
    (hlast : ('\x7b' :: t2).getLast? = some '\x7d')
    (hscan : scanBal 0 ('\x7b' :: t2) = some ('\x7b' :: t2, []))
    (hparse : jsonParseL ('\x7b' :: t2) = some j) :
    extractJSONL (pre ++ (btick :: btick :: btick :: 'j' :: 's' :: 'o' :: 'n' :: '\n' :: [])
        ++ ('\x7b' :: t2) ++ ('\n' :: btick :: btick :: btick :: '\n' :: []) ++ post)
      = Except.ok j := by
  have ht2_bt : ∀ c ∈ t2, c ≠ btick := fun c hc => ht_bt c (by simp [hc])
  -- Pass 1: the json-tagged fence strip removes the opening fence and its
  -- trailing newline and leaves everything else unchanged.
  have hA5 : SfjRun false post post := sfjRun_self hpost_bt
  have hA4 : SfjRun false ('\n' :: post) ('\n' :: post) :=
    sfjRun_keep (fenceJsonAt_of_ne _ (by decide)) hA5
  have hA3 : SfjRun false (btick :: '\n' :: post) (btick :: '\n' :: post) :=
    sfjRun_keep (fenceJsonAt_second_ne '\n' (by decide) _ _) hA4
  have hA2 : SfjRun false (btick :: btick :: '\n' :: post)
      (btick :: btick :: '\n' :: post) :=
    sfjRun_keep (fenceJsonAt_third_ne '\n' (by decide) _ _ _) hA3
  have hA1 : SfjRun false (btick :: btick :: btick :: '\n' :: post)
      (btick :: btick :: btick :: '\n' :: post) :=
    sfjRun_keep (fenceJsonAt_no_j '\n' (by decide) _ _ _ _) hA2
  have hA0 : SfjRun false ('\n' :: btick :: btick :: btick :: '\n' :: post)
      ('\n' :: btick :: btick :: btick :: '\n' :: post) :=
    sfjRun_keep (fenceJsonAt_of_ne _ (by decide)) hA1
  have hT : SfjRun false (t2 ++ '\n' :: btick :: btick :: btick :: '\n' :: post)
      (t2 ++ '\n' :: btick :: btick :: btick :: '\n' :: post) :=
    sfjRun_append ht2_bt hA0
  have hBr : SfjRun true ('\x7b' :: (t2 ++ '\n' :: btick :: btick :: btick :: '\n' :: post))
      ('\x7b' :: (t2 ++ '\n' :: btick :: btick :: btick :: '\n' :: post)) :=
    sfjRun_skip_exit (by decide) (by decide) hT
  have hNl : SfjRun true ('\n' :: '\x7b' :: (t2 ++ '\n' :: btick :: btick :: btick :: '\n' :: post))
      ('\x7b' :: (t2 ++ '\n' :: btick :: btick :: btick :: '\n' :: post)) :=
    sfjRun_skip_ws (by decide) hBr
  have hFo : SfjRun false (btick :: btick :: btick :: 'j' :: 's' :: 'o' :: 'n'
        :: '\n' :: '\x7b' :: (t2 ++ '\n' :: btick :: btick :: btick :: '\n' :: post))
      ('\x7b' :: (t2 ++ '\n' :: btick :: btick :: btick :: '\n' :: post)) :=
    sfjRun_fence false hNl
  have hPre1 : SfjRun false (pre ++ (btick :: btick :: btick :: 'j' :: 's' :: 'o' :: 'n'
        :: '\n' :: '\x7b' :: (t2 ++ '\n' :: btick :: btick :: btick :: '\n' :: post)))
      (pre ++ '\x7b' :: (t2 ++ '\n' :: btick :: btick :: btick :: '\n' :: post)) :=
    sfjRun_append hpre_bt hFo
  have hpass1 : stripFenceJson (pre ++ (btick :: btick :: btick :: 'j' :: 's' :: 'o' :: 'n' :: '\n' :: [])
        ++ ('\x7b' :: t2) ++ ('\n' :: btick :: btick :: btick :: '\n' :: []) ++ post)
      = pre ++ '\x7b' :: (t2 ++ '\n' :: btick :: btick :: btick :: '\n' :: post) := by
    have heq : pre ++ (btick :: btick :: btick :: 'j' :: 's' :: 'o' :: 'n' :: '\n' :: [])
          ++ ('\x7b' :: t2) ++ ('\n' :: btick :: btick :: btick :: '\n' :: []) ++ post
        = pre ++ (btick :: btick :: btick :: 'j' :: 's' :: 'o' :: 'n'
            :: '\n' :: '\x7b' :: (t2 ++ '\n' :: btick :: btick :: btick :: '\n' :: post)) := by
      simp [List.append_assoc]
    rw [heq]
    exact hPre1 _ (le_refl _)
  -- Pass 2: the bare fence strip removes the closing fence and the
  -- whitespace that follows it.
  have hB0 : SfbRun true post (post.dropWhile isJsWs) := sfbRun_skipAll hpost_bt
  have hB1 : SfbRun true ('\n' :: post) (post.dropWhile isJsWs) :=
    sfbRun_skip_ws (by decide) hB0
  have hB2 : SfbRun false (btick :: btick :: btick :: '\n' :: post)
      (post.dropWhile isJsWs) :=
    sfbRun_fence false hB1
  have hB3 : SfbRun false ('\n' :: btick :: btick :: btick :: '\n' :: post)
      ('\n' :: post.dropWhile isJsWs) :=
    sfbRun_keep (fenceBareAt_of_ne _ (by decide)) hB2
  have hB4 : SfbRun false (t2 ++ '\n' :: btick :: btick :: btick :: '\n' :: post)
      (t2 ++ '\n' :: post.dropWhile isJsWs) :=
    sfbRun_append ht2_bt hB3
  have hB5 : SfbRun false ('\x7b' :: (t2 ++ '\n' :: btick :: btick :: btick :: '\n' :: post))
      ('\x7b' :: (t2 ++ '\n' :: post.dropWhile isJsWs)) :=
    sfbRun_keep (fenceBareAt_of_ne _ (by decide)) hB4
  have hB6 : SfbRun false (pre ++ '\x7b' :: (t2 ++ '\n' :: btick :: btick :: btick :: '\n' :: post))
      (pre ++ '\x7b' :: (t2 ++ '\n' :: post.dropWhile isJsWs)) :=
    sfbRun_append hpre_bt hB5
  have hpass2 : stripFenceBare (pre ++ '\x7b' :: (t2 ++ '\n' :: btick :: btick :: btick :: '\n' :: post))
      = pre ++ '\x7b' :: (t2 ++ '\n' :: post.dropWhile isJsWs) := hB6 _ (le_refl _)
  -- Trim.
  have htl : List.dropWhile isJsWs (pre ++ '\x7b' :: (t2 ++ '\n' :: post.dropWhile isJsWs))
      = List.dropWhile isJsWs pre ++ '\x7b' :: (t2 ++ '\n' :: post.dropWhile isJsWs) :=
    dropWhile_append_head pre rfl (by decide)
  -- The reverse of the object text begins with the closing brace.
  obtain ⟨s, hs⟩ : ∃ s, ('\x7b' :: t2).reverse = '\x7d' :: s := by
    rcases hrev : ('\x7b' :: t2).reverse with _ | ⟨x, xs⟩
    · exfalso
      have := congrArg List.length hrev
      simp at this
    · have hh : ('\x7b' :: t2).reverse.head? = some x := by rw [hrev]; rfl
      rw [List.head?_reverse] at hh
      rw [hlast] at hh
      cases hh
      exact ⟨xs, rfl⟩
  -- Trim of the stripped text.
  have htrim : ∀ tt : List Char, tt.reverse = '\x7d' :: s →
      ((List.dropWhile isJsWs pre ++ (tt ++ ('\n' :: post.dropWhile isJsWs))).reverse.dropWhile
          isJsWs).reverse
        = List.dropWhile isJsWs pre
          ++ (tt ++ (List.dropWhile isJsWs ('\n' :: post.dropWhile isJsWs).reverse).reverse) := by
    intro tt hts
    rw [List.reverse_append, List.reverse_append, List.append_assoc]
    rw [dropWhile_append_head _
      (show tt.reverse ++ (List.dropWhile isJsWs pre).reverse
          = '\x7d' :: (s ++ (List.dropWhile isJsWs pre).reverse) by rw [hts]; rfl)
      (by decide)]
    simp [List.reverse_append, List.reverse_reverse, List.append_assoc]
  -- Locate the candidate: everything before the first open brace is prose.
  have hu : List.dropWhile (fun c => c ≠ '\x7b')
      (List.dropWhile isJsWs pre ++ (('\x7b' :: t2) ++ (List.dropWhile isJsWs ('\n' :: post.dropWhile isJsWs).reverse).reverse))
      = ('\x7b' :: t2) ++ (List.dropWhile isJsWs ('\n' :: post.dropWhile isJsWs).reverse).reverse := by
    rw [dropWhile_append_head _
      (show ('\x7b' :: t2) ++ (List.dropWhile isJsWs ('\n' :: post.dropWhile isJsWs).reverse).reverse
          = '\x7b' :: (t2 ++ (List.dropWhile isJsWs ('\n' :: post.dropWhile isJsWs).reverse).reverse) from rfl)
      (by decide)]
    rw [dropWhile_eq_nil_of_all, List.nil_append]
    intro c hc
    have hcp : c ∈ pre := (List.dropWhile_sublist _).subset hc
    simp [hpre_br c hcp]
  -- The balanced scan of the candidate region stops exactly at the close
  -- of the object text.
  have hsc : scanBal 0 (('\x7b' :: t2)
        ++ (List.dropWhile isJsWs ('\n' :: post.dropWhile isJsWs).reverse).reverse)
      = some ('\x7b' :: t2,
          (List.dropWhile isJsWs ('\n' :: post.dropWhile isJsWs).reverse).reverse) := by
    have h2 := scanBal_append
      ((List.dropWhile isJsWs ('\n' :: post.dropWhile isJsWs).reverse).reverse)
      ('\x7b' :: t2) 0 ('\x7b' :: t2) [] hscan
    simpa using h2
  -- Assemble.
  unfold extractJSONL jsTrim
  rw [hpass1, hpass2, htl]
  rw [show List.dropWhile isJsWs pre ++ '\x7b' :: (t2 ++ '\n' :: post.dropWhile isJsWs)
      = List.dropWhile isJsWs pre ++ (('\x7b' :: t2) ++ ('\n' :: post.dropWhile isJsWs)) from rfl]
  rw [htrim ('\x7b' :: t2) hs]
  dsimp only
  rw [hu]
  have hne : (('\x7b' :: t2)
      ++ (List.dropWhile isJsWs ('\n' :: post.dropWhile isJsWs).reverse).reverse).isEmpty
      = false := rfl
  rw [hne]
  simp only [Bool.false_eq_true, if_false]
  rw [hsc]
  dsimp only
  rw [hparse]

/-- Claim C2 witness: the amended theorem at the concrete wrap of a one
field object between prose. -/
theorem C2_wrapped_roundtrip_witness :
    extractJSONL ("Result: ".data
        ++ (btick :: btick :: btick :: 'j' :: 's' :: 'o' :: 'n' :: '\n' :: [])
        ++ ('\x7b' :: "\"a\":\"1\"\x7d".data)
        ++ ('\n' :: btick :: btick :: btick :: '\n' :: []) ++ "ok".data)
      = Except.ok (Json.obj [("a", Json.str "1")]) :=
  C2_wrapped_roundtrip_amended "Result: ".data "\"a\":\"1\"\x7d".data "ok".data
    (Json.obj [("a", Json.str "1")])
    (by decide) (by decide) (by decide) (by decide) (by decide) rfl rfl
